import Mathlib

/-
Verification development for `raw_to_canvas.py`, a script converting raw
instructor grade files into Canvas-format CSVs, optionally merging partner
submissions.  The definitions below are a shallow embedding of the Python
source: Pandas DataFrames indexed by student become ordered association
lists `List (String × ℚ)`, Python dicts become ordered association lists
built with insert-or-overwrite semantics, and float scores become exact
rationals.
-/

set_option maxHeartbeats 1000000

/-- Python's two-argument `min`: returns the second argument when it is
strictly smaller, otherwise the first (used at `raw_to_canvas.py:237`). -/
def pymin (a b : ℚ) : ℚ :=
  if b < a then b else a

/-- Python `str.lower` on one character (ASCII range, which is what UCI net
ids contain). -/
def pyLowerChar (c : Char) : Char :=
  if 65 ≤ c.toNat ∧ c.toNat ≤ 90 then Char.ofNat (c.toNat + 32) else c

/-- Python `str.strip` on a character list: drop whitespace from both
ends. -/
def pyStrip (cs : List Char) : List Char :=
  ((cs.dropWhile Char.isWhitespace).reverse.dropWhile Char.isWhitespace).reverse

/-- The identifier normalization `lambda x: x.lower().strip()` from
`Partners.__init__` (`raw_to_canvas.py:47`): lowercase every character,
then strip surrounding whitespace. -/
def preprocess (s : String) : String :=
  String.mk (pyStrip (s.data.map pyLowerChar))

/-- Insertion into a Python dict: overwrite the value in place if the key is
already present (keeping the key's original position), otherwise append the
binding at the end.  This is the semantics of building `dict(zip(...))` at
`raw_to_canvas.py:55`. -/
def dictInsert (d : List (String × String)) (k v : String) : List (String × String) :=
  if d.any (fun e => e.1 = k) then d.map (fun e => if e.1 = k then (k, v) else e)
  else d ++ [(k, v)]

/-- The partner dictionary built by `Partners.__init__`
(`raw_to_canvas.py:44-55`): both columns are preprocessed (lowercased and
trimmed) and zipped into a dict, row by row. -/
def partnersDict (rows : List (String × String)) : List (String × String) :=
  rows.foldl (fun d r => dictInsert d (preprocess r.1) (preprocess r.2)) []

/-- The `no_partners` filter of `Partners.__init__` (`raw_to_canvas.py:59`):
an entry `(a, b)` is flagged when `b` is not a key of the dict or the dict
maps `b` to something other than `a`, i.e. exactly when `lookup b ≠ some a`.
Flagged entries are only printed as a warning; the dict itself is returned
unchanged. -/
def noPartners (d : List (String × String)) : List (String × String) :=
  d.filter (fun e => decide (¬ d.lookup e.2 = some e.1))

/-- Value of a list of decimal digit characters. -/
def digitsToNat (cs : List Char) : Nat :=
  cs.foldl (fun a c => a * 10 + (c.toNat - 48)) 0

/-- Numeric parsing of a score field, modelling the numeric conversion that
pandas type inference applies to a column: optional sign, decimal digits
with an optional single decimal point (the plain-decimal fragment of Python
float syntax, which is the shape produced by the grading script). -/
def parseFloat? (s : String) : Option ℚ :=
  let cs := s.toList
  let sgn : Bool × List Char :=
    match cs with
    | '-' :: t => (true, t)
    | '+' :: t => (false, t)
    | _ => (false, cs)
  let intPart := sgn.2.takeWhile (fun c => c.isDigit)
  let rest := sgn.2.dropWhile (fun c => c.isDigit)
  let val? : Option ℚ :=
    match rest with
    | [] => if intPart.isEmpty then none else some (mkRat (digitsToNat intPart : Int) 1)
    | '.' :: frac =>
      if frac.all (fun c => c.isDigit) && (!intPart.isEmpty || !frac.isEmpty) then
        some (mkRat (digitsToNat intPart * 10 ^ frac.length + digitsToNat frac : Int)
          (10 ^ frac.length))
      else none
    | _ => none
  match val? with
  | none => none
  | some v => some (if sgn.1 then -v else v)

/-- A cell of the score column: a float, a raw string (when pandas keeps the
column as `object` because some entry is not numeric), or a missing value
(`NaN`, produced for rows shorter than the header row and for empty
fields). -/
inductive Val where
  | num (q : ℚ)
  | str (s : String)
  | nan
deriving DecidableEq

/-- Failure modes of `Grades.__init__` (`raw_to_canvas.py:191-197`):
`emptyData` models `pandas.errors.EmptyDataError` on an input with no data
rows, `extraFields` models the `ParserError` the python engine raises when a
row has more fields than the first row, and `columnsMismatch` models the
`ValueError` raised by assigning the two column names `["student", "score"]`
when the inferred column count is not two. -/
inductive ParseErr where
  | emptyData
  | extraFields
  | columnsMismatch
deriving DecidableEq

/-- An empty field is a missing value for pandas. -/
def normField (f : Option String) : Option String :=
  match f with
  | none => none
  | some s => if s = "" then none else some s

/-- Whether a field is compatible with a numeric column: missing fields
are, and present fields must parse as numbers.  Used for both the student
column and the score column, since pandas type-infers every column. -/
def fieldNumeric (f : Option String) : Bool :=
  match normField f with
  | none => true
  | some s => (parseFloat? s).isSome

/-- Conversion of a field to a cell, given whether its whole column was
inferred numeric.  In a numeric column present fields are parsed (so `"01"`
becomes the number 1); in an `object` column they stay raw strings; missing
fields are `NaN` either way.  `Val.num` holds the value as an exact
rational; the int64/float64 display distinction is not modelled. -/
def toVal (numeric : Bool) (f : Option String) : Val :=
  match normField f with
  | none => Val.nan
  | some s =>
    if numeric then
      match parseFloat? s with
      | some q => Val.num q
      | none => Val.str s
    else Val.str s

/-- Blank lines are skipped by `read_csv` (`skip_blank_lines` default). -/
def nonBlank (rows : List (List String)) : List (List String) :=
  rows.filter (fun r => !r.isEmpty)

/-- `Grades.__init__` (`raw_to_canvas.py:191-197`): the raw grade file,
presented as its rows already split on the `'\t|,'` separator regex (with
`skipinitialspace` applied), is loaded with `header=None`.  The python
engine takes the column count from the first row, raises on any longer row,
and pads shorter rows with `NaN`; the two column names are then assigned
(failing unless exactly two columns were inferred) and the first column
becomes the index, with duplicates retained.  Per-column type inference
applies to both columns: a column becomes numeric only when every present
entry parses as a number — in particular an all-numeric student column
yields numeric keys (`"01"` becomes the number 1), otherwise the keys are
the raw strings. -/
def parseGrades (rows0 : List (List String)) : Except ParseErr (List (Val × Val)) :=
  match nonBlank rows0 with
  | [] => Except.error ParseErr.emptyData
  | first :: rest =>
    if (first :: rest).any (fun r => decide (first.length < r.length)) then
      Except.error ParseErr.extraFields
    else if first.length ≠ 2 then
      Except.error ParseErr.columnsMismatch
    else
      let studentNumeric := (first :: rest).all (fun r => fieldNumeric (r.get? 0))
      let numeric := (first :: rest).all (fun r => fieldNumeric (r.get? 1))
      Except.ok ((first :: rest).map (fun r =>
        (toVal studentNumeric (r.get? 0), toVal numeric (r.get? 1))))

/-- Overwrite the score stored at key `s` of the DataFrame, in place
(`self._df.loc[s]["score"] = v`, `raw_to_canvas.py:237-238`). -/
def updScore (df : List (String × ℚ)) (s : String) (v : ℚ) : List (String × ℚ) :=
  df.map (fun e => if e.1 = s then (e.1, v) else e)

/-- Membership of a student in the DataFrame index
(`partner not in self._df.index`, `raw_to_canvas.py:230`). -/
def hasKey (df : List (String × ℚ)) (s : String) : Bool :=
  df.any (fun e => e.1 = s)

/-- The loop body of `Grades.merge_partners_grades`
(`raw_to_canvas.py:217-238`): iterate over the (snapshot of the) index; a
student without a partner entry is skipped; a student whose partner is
absent from the DataFrame contributes a `(partner, own score)` row to the
separate `partner_df` accumulator; otherwise both the student's and the
partner's scores are set, in place, to the minimum of their current
scores. -/
def mergeLoop (ps : List (String × String)) :
    List String → List (String × ℚ) → List (String × ℚ) →
    List (String × ℚ) × List (String × ℚ)
  | [], df, pdf => (df, pdf)
  | student :: rest, df, pdf =>
    match ps.lookup student with
    | none => mergeLoop ps rest df pdf
    | some partner =>
      match df.lookup student with
      | none => mergeLoop ps rest df pdf
      | some studentScore =>
        if hasKey df partner then
          match df.lookup partner with
          | none => mergeLoop ps rest df pdf
          | some partnerScore =>
            mergeLoop ps rest
              (updScore (updScore df student (pymin studentScore partnerScore))
                partner (pymin studentScore partnerScore)) pdf
        else
          mergeLoop ps rest df (pdf ++ [(partner, studentScore)])

/-- `Grades.merge_partners_grades` (`raw_to_canvas.py:199-243`): with no
partner relation (`None` or empty) the DataFrame is left untouched;
otherwise the loop runs over the index and the accumulated `partner_df`
rows are appended after the original rows. -/
def merge_partners_grades (df : List (String × ℚ))
    (partners : Option (List (String × String))) : List (String × ℚ) :=
  match partners with
  | none => df
  | some ps =>
    if ps.isEmpty then df
    else
      let r := mergeLoop ps (df.map Prod.fst) df []
      if r.2.isEmpty then r.1 else r.1 ++ r.2

/-- Smallest number of fractional decimal digits representing the rational
exactly, i.e. the least `k` with `den ∣ 10 ^ k`, searched up to the bounded
expansion length floats can have. -/
def decExp? (q : ℚ) : Option Nat :=
  (List.range 18).find? (fun k => decide (10 ^ k % q.den = 0))

/-- Left-pad with zeros to a given width. -/
def padZeros (s : String) (n : Nat) : String :=
  String.mk (List.replicate (n - s.length) '0') ++ s

/-- Decimal rendering of a nonnegative terminating decimal with `k`
fractional digits: the digits of `q * 10 ^ k` with the decimal point
inserted `k` places from the right. -/
def renderPos (q : ℚ) (k : Nat) : String :=
  let n := q.num.toNat * (10 ^ k / q.den)
  if k = 0 then toString n ++ ".0"
  else toString (n / 10 ^ k) ++ "." ++ padZeros (toString (n % 10 ^ k)) k

/-- Rendering of a float score as `DataFrame.to_csv` writes it
(`raw_to_canvas.py:251`): the shortest terminating decimal expansion, with
`.0` appended to integral values. -/
def renderScore (q : ℚ) : String :=
  if q < 0 then
    match decExp? (-q) with
    | some k => "-" ++ renderPos (-q) k
    | none => toString q
  else
    match decExp? q with
    | some k => renderPos q k
    | none => toString q

/-- The line `to_csv` emits for one DataFrame row: index, comma, score. -/
def lineOf (e : String × ℚ) : String :=
  e.1 ++ "," ++ renderScore e.2

/-- The sequence of lines `Grades.write` emits (`raw_to_canvas.py:245-251`,
`to_csv` with `header=False`): one line per row, no header. -/
def gradesWriteLines (df : List (String × ℚ)) : List String :=
  df.map lineOf

/-- The file content produced by `Grades.write`: each line terminated by a
newline. -/
def gradesWrite (df : List (String × ℚ)) : String :=
  String.join ((gradesWriteLines df).map (fun l => l ++ "\n"))

/-- `CanvasWriter.write` (`raw_to_canvas.py:266-279`): the file starts with
the `,assignment` line, then the `Points Possible,points` line, then the
grade rows. -/
def canvasWrite (assignment points : String) (df : List (String × ℚ)) : String :=
  ("," ++ assignment ++ "\n") ++ ("Points Possible," ++ points ++ "\n") ++ gradesWrite df

/-- The required configuration keys (`raw_to_canvas.py:91-95`). -/
def requiredKeys : List String := ["points", "assignment", "grades", "output_file"]

/-- Key membership in the parsed JSON config dict. -/
def hasCfgKey (cfg : List (String × String)) (k : String) : Bool :=
  cfg.any (fun e => e.1 = k)

/-- Value of a config key (total; callers guard with `hasCfgKey`). -/
def cfgGet (cfg : List (String × String)) (k : String) : String :=
  (cfg.lookup k).getD ""

/-- The fatal configuration errors of `_verify_config`
(`raw_to_canvas.py:112-141`). -/
inductive CfgErr where
  | missingKey (k : String)
  | badPath (p : String)
deriving DecidableEq

/-- `_verify_config` (`raw_to_canvas.py:112-141`): check the four required
keys in order, then that the grades path is a file, then that the partners
path, when configured, is a file; any failure prints and exits with code
1. -/
def verify_config (isFile : String → Bool) (cfg : List (String × String)) : Option CfgErr :=
  if !hasCfgKey cfg "points" then some (CfgErr.missingKey "points")
  else if !hasCfgKey cfg "assignment" then some (CfgErr.missingKey "assignment")
  else if !hasCfgKey cfg "grades" then some (CfgErr.missingKey "grades")
  else if !hasCfgKey cfg "output_file" then some (CfgErr.missingKey "output_file")
  else if !isFile (cfgGet cfg "grades") then some (CfgErr.badPath (cfgGet cfg "grades"))
  else if hasCfgKey cfg "partners" && !isFile (cfgGet cfg "partners") then
    some (CfgErr.badPath (cfgGet cfg "partners"))
  else none

/-- The observable file events of `main` after the config JSON itself has
been loaded. -/
inductive MainEvent where
  | readPartnersFile
  | readGradesFile
  | writeOutputFile
deriving DecidableEq

/-- The trace of `main` (`raw_to_canvas.py:282-300`) abstracted to its file
events and exit code: `Config.__init__` runs `_verify_config` first and
exits with code 1 on any failure, before the partners file (when
configured), the grades file, or the output file is touched; on success the
partners file (if any) is read, then the grades file, then the output file
is written, and the process exits with code 0. -/
def mainEvents (isFile : String → Bool) (cfg : List (String × String)) :
    List MainEvent × Nat :=
  match verify_config isFile cfg with
  | some _ => ([], 1)
  | none =>
    ((if hasCfgKey cfg "partners" then [MainEvent.readPartnersFile] else []) ++
      [MainEvent.readGradesFile, MainEvent.writeOutputFile], 0)

/-! ### Association list lemmas -/

theorem lookup_append_of_some {β : Type} {l1 l2 : List (String × β)} {x : String} {v : β}
    (h : l1.lookup x = some v) : (l1 ++ l2).lookup x = some v := by
  induction l1 with
  | nil => simp at h
  | cons e t ih =>
    obtain ⟨k, w⟩ := e
    by_cases hx : x = k
    · simpa [List.lookup_cons, hx] using h
    · rw [List.cons_append, List.lookup_cons, beq_false_of_ne hx]
      rw [List.lookup_cons, beq_false_of_ne hx] at h
      exact ih h

theorem lookup_eq_none_iff {β : Type} {l : List (String × β)} {x : String} :
    l.lookup x = none ↔ x ∉ l.map Prod.fst := by
  induction l with
  | nil => simp
  | cons e t ih =>
    obtain ⟨k, w⟩ := e
    by_cases hx : x = k
    · simp [List.lookup_cons, hx]
    · rw [List.lookup_cons, beq_false_of_ne hx]
      simp [hx, ih]

theorem lookup_some_mem_keys {β : Type} {l : List (String × β)} {x : String} {v : β}
    (h : l.lookup x = some v) : x ∈ l.map Prod.fst := by
  by_contra hx
  rw [← lookup_eq_none_iff] at hx
  rw [h] at hx
  cases hx

theorem lookup_ne_nil {β : Type} {l : List (String × β)} {x : String} {v : β}
    (h : l.lookup x = some v) : l ≠ [] := by
  intro he
  subst he
  simp at h

/-! ### `updScore` and `hasKey` lemmas -/

theorem updScore_cons (k : String) (w : ℚ) (t : List (String × ℚ)) (s : String) (v : ℚ) :
    updScore ((k, w) :: t) s v = (if k = s then (k, v) else (k, w)) :: updScore t s v := rfl

theorem updScore_keys (df : List (String × ℚ)) (s : String) (v : ℚ) :
    (updScore df s v).map Prod.fst = df.map Prod.fst := by
  induction df with
  | nil => rfl
  | cons e t ih =>
    obtain ⟨k, w⟩ := e
    rw [updScore_cons]
    by_cases he : k = s <;> simp [he, ih]

theorem lookup_updScore_ne {df : List (String × ℚ)} {x s : String} (v : ℚ) (h : x ≠ s) :
    (updScore df s v).lookup x = df.lookup x := by
  induction df with
  | nil => rfl
  | cons e t ih =>
    obtain ⟨k, w⟩ := e
    rw [updScore_cons]
    by_cases he : k = s
    · have hx : x ≠ k := fun hxk => h (hxk.trans he)
      rw [if_pos he, List.lookup_cons, List.lookup_cons, beq_false_of_ne hx]
      exact ih
    · rw [if_neg he]
      by_cases hx : x = k
      · simp [List.lookup_cons, hx]
      · rw [List.lookup_cons, List.lookup_cons, beq_false_of_ne hx]
        exact ih

theorem hasKey_iff_mem {df : List (String × ℚ)} {s : String} :
    hasKey df s = true ↔ s ∈ df.map Prod.fst := by
  simp only [hasKey, List.any_eq_true, decide_eq_true_eq, List.mem_map]

theorem lookup_updScore_self {df : List (String × ℚ)} {s : String} (v : ℚ)
    (h : s ∈ df.map Prod.fst) : (updScore df s v).lookup s = some v := by
  induction df with
  | nil => simp at h
  | cons e t ih =>
    obtain ⟨k, w⟩ := e
    rw [updScore_cons]
    by_cases he : k = s
    · subst he
      simp [List.lookup_cons]
    · have hs : s ∈ t.map Prod.fst := by
        rcases (by simpa using h : s = k ∨ s ∈ t.map Prod.fst) with h' | h'
        · exact absurd h'.symm he
        · exact h'
      have hsk : s ≠ k := fun hsk => he hsk.symm
      rw [if_neg he, List.lookup_cons, beq_false_of_ne hsk]
      exact ih hs

theorem hasKey_congr_keys {df1 df2 : List (String × ℚ)} {s : String}
    (h : df1.map Prod.fst = df2.map Prod.fst) : hasKey df1 s = hasKey df2 s := by
  cases h2 : hasKey df2 s with
  | true =>
    exact hasKey_iff_mem.mpr (h ▸ hasKey_iff_mem.mp h2)
  | false =>
    cases h1 : hasKey df1 s with
    | true =>
      rw [hasKey_iff_mem.mpr (h ▸ hasKey_iff_mem.mp h1)] at h2
      cases h2
    | false => rfl

theorem hasKey_updScore (df : List (String × ℚ)) (s x : String) (v : ℚ) :
    hasKey (updScore df s v) x = hasKey df x :=
  hasKey_congr_keys (updScore_keys df s v)

theorem filter_key_nil {β : Type} {l : List (String × β)} {c : String}
    (h : c ∉ l.map Prod.fst) : l.filter (fun e => decide (e.1 = c)) = [] := by
  induction l with
  | nil => rfl
  | cons e t ih =>
    obtain ⟨k, w⟩ := e
    simp only [List.map_cons, List.mem_cons, not_or] at h
    have hk : ¬ k = c := fun hc => h.1 hc.symm
    simp only [List.filter_cons, decide_eq_true_eq]
    rw [if_neg (by simpa using hk)]
    exact ih h.2

/-! ### `mergeLoop` step lemmas -/

theorem mergeLoop_nil (ps : List (String × String)) (df pdf : List (String × ℚ)) :
    mergeLoop ps [] df pdf = (df, pdf) := rfl

theorem mergeLoop_cons_none {ps : List (String × String)} {s : String}
    (rest : List String) (df pdf : List (String × ℚ)) (h : ps.lookup s = none) :
    mergeLoop ps (s :: rest) df pdf = mergeLoop ps rest df pdf := by
  simp [mergeLoop, h]

theorem mergeLoop_cons_noscore {ps : List (String × String)} {s p : String}
    (rest : List String) (df pdf : List (String × ℚ))
    (hp : ps.lookup s = some p) (hv : df.lookup s = none) :
    mergeLoop ps (s :: rest) df pdf = mergeLoop ps rest df pdf := by
  simp [mergeLoop, hp, hv]

theorem mergeLoop_cons_absent {ps : List (String × String)} {s p : String} {v : ℚ}
    (rest : List String) (df pdf : List (String × ℚ))
    (hp : ps.lookup s = some p) (hv : df.lookup s = some v) (hk : hasKey df p = false) :
    mergeLoop ps (s :: rest) df pdf = mergeLoop ps rest df (pdf ++ [(p, v)]) := by
  simp [mergeLoop, hp, hv, hk]

theorem mergeLoop_cons_unreachable {ps : List (String × String)} {s p : String} {v : ℚ}
    (rest : List String) (df pdf : List (String × ℚ))
    (hp : ps.lookup s = some p) (hv : df.lookup s = some v) (hk : hasKey df p = true)
    (hw : df.lookup p = none) :
    mergeLoop ps (s :: rest) df pdf = mergeLoop ps rest df pdf := by
  simp [mergeLoop, hp, hv, hk, hw]

theorem mergeLoop_cons_present {ps : List (String × String)} {s p : String} {v w : ℚ}
    (rest : List String) (df pdf : List (String × ℚ))
    (hp : ps.lookup s = some p) (hv : df.lookup s = some v) (hk : hasKey df p = true)
    (hw : df.lookup p = some w) :
    mergeLoop ps (s :: rest) df pdf =
      mergeLoop ps rest (updScore (updScore df s (pymin v w)) p (pymin v w)) pdf := by
  simp [mergeLoop, hp, hv, hk, hw]

theorem mergeLoop_append (ps : List (String × String)) (l1 l2 : List String)
    (df pdf : List (String × ℚ)) :
    mergeLoop ps (l1 ++ l2) df pdf =
      mergeLoop ps l2 (mergeLoop ps l1 df pdf).1 (mergeLoop ps l1 df pdf).2 := by
  induction l1 generalizing df pdf with
  | nil => rfl
  | cons s rest ih =>
    rw [List.cons_append]
    cases hps : ps.lookup s with
    | none =>
      rw [mergeLoop_cons_none _ _ _ hps, mergeLoop_cons_none _ _ _ hps, ih]
    | some p =>
      cases hv : df.lookup s with
      | none =>
        rw [mergeLoop_cons_noscore _ _ _ hps hv, mergeLoop_cons_noscore _ _ _ hps hv, ih]
      | some v =>
        cases hk : hasKey df p with
        | false =>
          rw [mergeLoop_cons_absent _ _ _ hps hv hk, mergeLoop_cons_absent _ _ _ hps hv hk, ih]
        | true =>
          cases hw : df.lookup p with
          | none =>
            rw [mergeLoop_cons_unreachable _ _ _ hps hv hk hw,
              mergeLoop_cons_unreachable _ _ _ hps hv hk hw, ih]
          | some w =>
            rw [mergeLoop_cons_present _ _ _ hps hv hk hw,
              mergeLoop_cons_present _ _ _ hps hv hk hw, ih]

theorem mergeLoop_keys (ps : List (String × String)) (students : List String)
    (df pdf : List (String × ℚ)) :
    ((mergeLoop ps students df pdf).1).map Prod.fst = df.map Prod.fst := by
  induction students generalizing df pdf with
  | nil => rfl
  | cons s rest ih =>
    cases hps : ps.lookup s with
    | none => rw [mergeLoop_cons_none _ _ _ hps]; exact ih df pdf
    | some p =>
      cases hv : df.lookup s with
      | none => rw [mergeLoop_cons_noscore _ _ _ hps hv]; exact ih df pdf
      | some v =>
        cases hk : hasKey df p with
        | false => rw [mergeLoop_cons_absent _ _ _ hps hv hk]; exact ih df _
        | true =>
          cases hw : df.lookup p with
          | none => rw [mergeLoop_cons_unreachable _ _ _ hps hv hk hw]; exact ih df pdf
          | some w =>
            rw [mergeLoop_cons_present _ _ _ hps hv hk hw, ih, updScore_keys, updScore_keys]

theorem mergeLoop_pdf_mono (ps : List (String × String)) (students : List String)
    (df pdf : List (String × ℚ)) :
    ∃ t, (mergeLoop ps students df pdf).2 = pdf ++ t := by
  induction students generalizing df pdf with
  | nil => exact ⟨[], by simp [mergeLoop_nil]⟩
  | cons s rest ih =>
    cases hps : ps.lookup s with
    | none => rw [mergeLoop_cons_none _ _ _ hps]; exact ih df pdf
    | some p =>
      cases hv : df.lookup s with
      | none => rw [mergeLoop_cons_noscore _ _ _ hps hv]; exact ih df pdf
      | some v =>
        cases hk : hasKey df p with
        | false =>
          rw [mergeLoop_cons_absent _ _ _ hps hv hk]
          obtain ⟨t, ht⟩ := ih df (pdf ++ [(p, v)])
          exact ⟨(p, v) :: t, by rw [ht, List.append_assoc]; rfl⟩
        | true =>
          cases hw : df.lookup p with
          | none => rw [mergeLoop_cons_unreachable _ _ _ hps hv hk hw]; exact ih df pdf
          | some w => rw [mergeLoop_cons_present _ _ _ hps hv hk hw]; exact ih _ pdf

theorem mergeLoop_lookup_untouched {ps : List (String × String)} {x : String}
    (students : List String) (df pdf : List (String × ℚ))
    (hx : ∀ s ∈ students, ∀ p, ps.lookup s = some p → hasKey df p = true → s ≠ x ∧ p ≠ x) :
    ((mergeLoop ps students df pdf).1).lookup x = df.lookup x := by
  induction students generalizing df pdf with
  | nil => rfl
  | cons s rest ih =>
    cases hps : ps.lookup s with
    | none =>
      rw [mergeLoop_cons_none _ _ _ hps]
      exact ih df pdf (fun s' hs' => hx s' (List.mem_cons_of_mem _ hs'))
    | some p =>
      cases hv : df.lookup s with
      | none =>
        rw [mergeLoop_cons_noscore _ _ _ hps hv]
        exact ih df pdf (fun s' hs' => hx s' (List.mem_cons_of_mem _ hs'))
      | some v =>
        cases hk : hasKey df p with
        | false =>
          rw [mergeLoop_cons_absent _ _ _ hps hv hk]
          exact ih df _ (fun s' hs' => hx s' (List.mem_cons_of_mem _ hs'))
        | true =>
          cases hw : df.lookup p with
          | none =>
            rw [mergeLoop_cons_unreachable _ _ _ hps hv hk hw]
            exact ih df pdf (fun s' hs' => hx s' (List.mem_cons_of_mem _ hs'))
          | some w =>
            obtain ⟨hsx, hpx⟩ := hx s (List.mem_cons_self _ _) p hps hk
            rw [mergeLoop_cons_present _ _ _ hps hv hk hw]
            rw [ih _ pdf ?_]
            · rw [lookup_updScore_ne _ (fun hxp => hpx hxp.symm),
                lookup_updScore_ne _ (fun hxs => hsx hxs.symm)]
            · intro s' hs' p' hp' hk'
              refine hx s' (List.mem_cons_of_mem _ hs') p' hp' ?_
              rwa [hasKey_updScore, hasKey_updScore] at hk'

theorem mergeLoop_pdf_filter {ps : List (String × String)} {c : String}
    (students : List String) (df pdf : List (String × ℚ))
    (hc : ∀ s ∈ students, ∀ p, ps.lookup s = some p → hasKey df p = false → p ≠ c) :
    ((mergeLoop ps students df pdf).2).filter (fun e => decide (e.1 = c)) =
      pdf.filter (fun e => decide (e.1 = c)) := by
  induction students generalizing df pdf with
  | nil => rfl
  | cons s rest ih =>
    cases hps : ps.lookup s with
    | none =>
      rw [mergeLoop_cons_none _ _ _ hps]
      exact ih df pdf (fun s' hs' => hc s' (List.mem_cons_of_mem _ hs'))
    | some p =>
      cases hv : df.lookup s with
      | none =>
        rw [mergeLoop_cons_noscore _ _ _ hps hv]
        exact ih df pdf (fun s' hs' => hc s' (List.mem_cons_of_mem _ hs'))
      | some v =>
        cases hk : hasKey df p with
        | false =>
          have hpc : ¬ p = c := hc s (List.mem_cons_self _ _) p hps hk
          rw [mergeLoop_cons_absent _ _ _ hps hv hk]
          rw [ih df _ (fun s' hs' => hc s' (List.mem_cons_of_mem _ hs'))]
          rw [List.filter_append]
          simp [List.filter, hpc]
        | true =>
          cases hw : df.lookup p with
          | none =>
            rw [mergeLoop_cons_unreachable _ _ _ hps hv hk hw]
            exact ih df pdf (fun s' hs' => hc s' (List.mem_cons_of_mem _ hs'))
          | some w =>
            rw [mergeLoop_cons_present _ _ _ hps hv hk hw]
            refine ih _ pdf ?_
            intro s' hs' p' hp' hk'
            refine hc s' (List.mem_cons_of_mem _ hs') p' hp' ?_
            rwa [hasKey_updScore, hasKey_updScore] at hk'

theorem merge_some_eq {ps : List (String × String)} (df : List (String × ℚ)) (hps : ps ≠ []) :
    merge_partners_grades df (some ps) =
      (mergeLoop ps (df.map Prod.fst) df []).1 ++ (mergeLoop ps (df.map Prod.fst) df []).2 := by
  have h1 : ps.isEmpty = false := by
    cases ps with
    | nil => exact absurd rfl hps
    | cons a t => rfl
  simp only [merge_partners_grades, h1, Bool.false_eq_true, if_false]
  cases h2 : (mergeLoop ps (df.map Prod.fst) df []).2 with
  | nil => simp [h2]
  | cons e t => simp [h2]

/-! ### Arithmetic and list splitting helpers -/

theorem pymin_self (a : ℚ) : pymin a a = a := by
  simp [pymin]

theorem pymin_comm (a b : ℚ) : pymin a b = pymin b a := by
  unfold pymin
  rcases lt_trichotomy a b with h | h | h
  · rw [if_neg (lt_asymm h), if_pos h]
  · subst h; rfl
  · rw [if_pos h, if_neg (lt_asymm h)]

theorem nodup_split_facts {L1 L2 L3 : List String} {x y : String}
    (hnd : (L1 ++ x :: (L2 ++ y :: L3)).Nodup) :
    x ∉ L1 ∧ x ∉ L2 ∧ x ∉ L3 ∧ y ∉ L1 ∧ y ∉ L2 ∧ y ∉ L3 ∧ x ≠ y := by
  obtain ⟨hL1, hrest, hdisj⟩ := List.nodup_append.mp hnd
  obtain ⟨hxtail, htail⟩ := List.nodup_cons.mp hrest
  obtain ⟨hL2, hrest2, hdisj2⟩ := List.nodup_append.mp htail
  obtain ⟨hyL3, hL3⟩ := List.nodup_cons.mp hrest2
  refine ⟨?_, ?_, ?_, ?_, ?_, hyL3, ?_⟩
  · intro h; exact hdisj h (List.mem_cons_self _ _)
  · intro h; exact hxtail (List.mem_append_left _ h)
  · intro h; exact hxtail (List.mem_append_right _ (List.mem_cons_of_mem _ h))
  · intro h
    exact hdisj h (List.mem_cons_of_mem _ (List.mem_append_right _ (List.mem_cons_self _ _)))
  · intro h; exact hdisj2 h (List.mem_cons_self _ _)
  · intro h; subst h; exact hxtail (List.mem_append_right _ (List.mem_cons_self _ _))

theorem mem_pair_split {L : List String} {a b : String} (ha : a ∈ L) (hb : b ∈ L)
    (hne : a ≠ b) :
    (∃ L1 L2 L3, L = L1 ++ a :: (L2 ++ b :: L3)) ∨
    (∃ L1 L2 L3, L = L1 ++ b :: (L2 ++ a :: L3)) := by
  obtain ⟨s, t, rfl⟩ := List.append_of_mem ha
  rcases List.mem_append.mp hb with hbs | hbt
  · obtain ⟨u, v, rfl⟩ := List.append_of_mem hbs
    right
    exact ⟨u, v, t, by simp⟩
  · rcases List.mem_cons.mp hbt with hba | hbt
    · exact absurd hba.symm hne
    · obtain ⟨u, v, rfl⟩ := List.append_of_mem hbt
      left
      exact ⟨s, u, v, by simp⟩

theorem untouched_hyp {ps : List (String × String)} {a b x : String} {keys L' : List String}
    (hx : x = a ∨ x = b)
    (hno : ∀ s ∈ keys, s ≠ a → s ≠ b → ps.lookup s ≠ some a ∧ ps.lookup s ≠ some b)
    (hsub : ∀ s ∈ L', s ∈ keys ∧ s ≠ a ∧ s ≠ b) (D : List (String × ℚ)) :
    ∀ s ∈ L', ∀ p, ps.lookup s = some p → hasKey D p = true → s ≠ x ∧ p ≠ x := by
  intro s hs p hp _
  obtain ⟨hsk, hsa, hsb⟩ := hsub s hs
  obtain ⟨hna, hnb⟩ := hno s hsk hsa hsb
  constructor
  · rcases hx with rfl | rfl
    · exact hsa
    · exact hsb
  · rintro rfl
    rcases hx with rfl | rfl
    · exact hna hp
    · exact hnb hp

/-! ### The reciprocal-pair walk through the merge loop -/

theorem mergeLoop_reciprocal_core {ps : List (String × String)}
    {df : List (String × ℚ)} {L1 L2 L3 : List String} {a b : String} {va vb : ℚ}
    (hsplit : df.map Prod.fst = L1 ++ a :: (L2 ++ b :: L3))
    (ha : df.lookup a = some va) (hb : df.lookup b = some vb)
    (hpa : ps.lookup a = some b) (hpb : ps.lookup b = some a)
    (hnd : (df.map Prod.fst).Nodup)
    (hno : ∀ s ∈ df.map Prod.fst, s ≠ a → s ≠ b →
      ps.lookup s ≠ some a ∧ ps.lookup s ≠ some b) :
    ((mergeLoop ps (df.map Prod.fst) df []).1).lookup a = some (pymin va vb) ∧
    ((mergeLoop ps (df.map Prod.fst) df []).1).lookup b = some (pymin va vb) := by
  have hndsplit := hnd
  rw [hsplit] at hndsplit
  obtain ⟨haL1, haL2, haL3, hbL1, hbL2, hbL3, hab⟩ := nodup_split_facts hndsplit
  have hamem : a ∈ df.map Prod.fst := lookup_some_mem_keys ha
  have hbmem : b ∈ df.map Prod.fst := lookup_some_mem_keys hb
  have hsubL1 : ∀ s ∈ L1, s ∈ df.map Prod.fst ∧ s ≠ a ∧ s ≠ b := by
    intro s hs
    exact ⟨by rw [hsplit]; exact List.mem_append_left _ hs,
      fun h => haL1 (h ▸ hs), fun h => hbL1 (h ▸ hs)⟩
  have hsubL2 : ∀ s ∈ L2, s ∈ df.map Prod.fst ∧ s ≠ a ∧ s ≠ b := by
    intro s hs
    refine ⟨?_, fun h => haL2 (h ▸ hs), fun h => hbL2 (h ▸ hs)⟩
    rw [hsplit]
    exact List.mem_append_right _ (List.mem_cons_of_mem _ (List.mem_append_left _ hs))
  have hsubL3 : ∀ s ∈ L3, s ∈ df.map Prod.fst ∧ s ≠ a ∧ s ≠ b := by
    intro s hs
    refine ⟨?_, fun h => haL3 (h ▸ hs), fun h => hbL3 (h ▸ hs)⟩
    rw [hsplit]
    exact List.mem_append_right _ (List.mem_cons_of_mem _
      (List.mem_append_right _ (List.mem_cons_of_mem _ hs)))
  rw [hsplit, mergeLoop_append]
  set R1 := mergeLoop ps L1 df [] with hR1def
  have hR1keys : (R1.1).map Prod.fst = df.map Prod.fst := mergeLoop_keys ps L1 df []
  have hR1a : R1.1.lookup a = some va :=
    (mergeLoop_lookup_untouched L1 df [] (untouched_hyp (Or.inl rfl) hno hsubL1 df)).trans ha
  have hR1b : R1.1.lookup b = some vb :=
    (mergeLoop_lookup_untouched L1 df [] (untouched_hyp (Or.inr rfl) hno hsubL1 df)).trans hb
  have hkR1b : hasKey R1.1 b = true := by
    rw [hasKey_congr_keys hR1keys]
    exact hasKey_iff_mem.mpr hbmem
  rw [mergeLoop_cons_present _ _ _ hpa hR1a hkR1b hR1b]
  set m := pymin va vb with hmdef
  set D2 := updScore (updScore R1.1 a m) b m with hD2def
  have hD2keys : D2.map Prod.fst = df.map Prod.fst := by
    rw [hD2def, updScore_keys, updScore_keys, hR1keys]
  have hD2a : D2.lookup a = some m := by
    rw [hD2def, lookup_updScore_ne _ hab]
    exact lookup_updScore_self _ (by rw [hR1keys]; exact hamem)
  have hD2b : D2.lookup b = some m := by
    rw [hD2def]
    exact lookup_updScore_self _ (by rw [updScore_keys, hR1keys]; exact hbmem)
  rw [mergeLoop_append]
  set R2 := mergeLoop ps L2 D2 R1.2 with hR2def
  have hR2keys : (R2.1).map Prod.fst = df.map Prod.fst :=
    (mergeLoop_keys ps L2 D2 R1.2).trans hD2keys
  have hR2a : R2.1.lookup a = some m :=
    (mergeLoop_lookup_untouched L2 D2 R1.2 (untouched_hyp (Or.inl rfl) hno hsubL2 D2)).trans hD2a
  have hR2b : R2.1.lookup b = some m :=
    (mergeLoop_lookup_untouched L2 D2 R1.2 (untouched_hyp (Or.inr rfl) hno hsubL2 D2)).trans hD2b
  have hkR2a : hasKey R2.1 a = true := by
    rw [hasKey_congr_keys hR2keys]
    exact hasKey_iff_mem.mpr hamem
  rw [mergeLoop_cons_present _ _ _ hpb hR2b hkR2a hR2a, pymin_self]
  set D3 := updScore (updScore R2.1 b m) a m with hD3def
  have hD3a : D3.lookup a = some m := by
    rw [hD3def]
    exact lookup_updScore_self _ (by rw [updScore_keys, hR2keys]; exact hamem)
  have hD3b : D3.lookup b = some m := by
    rw [hD3def, lookup_updScore_ne _ (fun h => hab h.symm)]
    exact lookup_updScore_self _ (by rw [hR2keys]; exact hbmem)
  constructor
  · exact (mergeLoop_lookup_untouched L3 D3 R2.2
      (untouched_hyp (Or.inl rfl) hno hsubL3 D3)).trans hD3a
  · exact (mergeLoop_lookup_untouched L3 D3 R2.2
      (untouched_hyp (Or.inr rfl) hno hsubL3 D3)).trans hD3b

/-- C1 (amended): for a reciprocal pair `(a, b)`, both present in the score
record (a mapping, so keys are distinct), and such that no third student
present in the score record declares `a` or `b` as partner, the merged
scores of both `a` and `b` equal the minimum of their original scores.  (The
third-party restriction is forced: an asymmetric declaration pointing at `a`
or `b` is kept by the resolver and, processed first, lowers the pair's
scores before the pair itself is processed.) -/
theorem merge_reciprocal_pair_min {df : List (String × ℚ)} {ps : List (String × String)}
    {a b : String} {va vb : ℚ}
    (hnd : (df.map Prod.fst).Nodup) (hab : a ≠ b)
    (ha : df.lookup a = some va) (hb : df.lookup b = some vb)
    (hpa : ps.lookup a = some b) (hpb : ps.lookup b = some a)
    (hno : ∀ s ∈ df.map Prod.fst, s ≠ a → s ≠ b →
      ps.lookup s ≠ some a ∧ ps.lookup s ≠ some b) :
    (merge_partners_grades df (some ps)).lookup a = some (pymin va vb) ∧
    (merge_partners_grades df (some ps)).lookup b = some (pymin va vb) := by
  have hps : ps ≠ [] := lookup_ne_nil hpa
  rw [merge_some_eq df hps]
  have hcore :
      ((mergeLoop ps (df.map Prod.fst) df []).1).lookup a = some (pymin va vb) ∧
      ((mergeLoop ps (df.map Prod.fst) df []).1).lookup b = some (pymin va vb) := by
    rcases mem_pair_split (lookup_some_mem_keys ha) (lookup_some_mem_keys hb) hab with
      ⟨L1, L2, L3, hsplit⟩ | ⟨L1, L2, L3, hsplit⟩
    · exact mergeLoop_reciprocal_core hsplit ha hb hpa hpb hnd hno
    · have h := mergeLoop_reciprocal_core hsplit hb ha hpb hpa hnd
        (fun s hs hsb hsa => (hno s hs hsa hsb).symm)
      rw [pymin_comm vb va] at h
      exact ⟨h.2, h.1⟩
  exact ⟨lookup_append_of_some hcore.1, lookup_append_of_some hcore.2⟩

/-- Witness for C1 at the spec's example: reciprocal pair with scores 8.0
and 5.0, both merged to 5.0. -/
theorem merge_reciprocal_pair_min_witness :
    (merge_partners_grades [("a", 8), ("b", 5)] (some [("a", "b"), ("b", "a")])).lookup "a" =
      some 5 ∧
    (merge_partners_grades [("a", 8), ("b", 5)] (some [("a", "b"), ("b", "a")])).lookup "b" =
      some 5 := by
  have h := @merge_reciprocal_pair_min [("a", 8), ("b", 5)] [("a", "b"), ("b", "a")]
    "a" "b" 8 5 (by decide) (by decide) (by decide) (by decide) (by decide) (by decide)
    (by decide)
  rw [show pymin (8 : ℚ) 5 = 5 from by decide] at h
  exact h

/-- Counterexample to C1 as stated: the pair `(a, b)` is reciprocal
(`partner[a] = b`, `partner[b] = a`) and both submitted (8.0 and 5.0), but a
third student `c` (score 1.0) asymmetrically declared `a`; processing `c`
first drags both `a` and `b` down to 1.0 instead of `min(8, 5) = 5`. -/
theorem merge_reciprocal_pair_min_cex :
    ([("c", "a"), ("a", "b"), ("b", "a")] : List (String × String)).lookup "a" = some "b" ∧
    ([("c", "a"), ("a", "b"), ("b", "a")] : List (String × String)).lookup "b" = some "a" ∧
    ([("c", 1), ("a", 8), ("b", 5)] : List (String × ℚ)).lookup "a" = some 8 ∧
    ([("c", 1), ("a", 8), ("b", 5)] : List (String × ℚ)).lookup "b" = some 5 ∧
    (merge_partners_grades [("c", 1), ("a", 8), ("b", 5)]
      (some [("c", "a"), ("a", "b"), ("b", "a")])).lookup "a" = some 1 ∧
    (merge_partners_grades [("c", 1), ("a", 8), ("b", 5)]
      (some [("c", "a"), ("a", "b"), ("b", "a")])).lookup "b" = some 1 ∧
    pymin 8 5 = (5 : ℚ) ∧ (1 : ℚ) ≠ 5 := by
  decide

/-- C3: with an absent (`None`) or empty partner relation,
`merge_partners_grades` returns the score record unchanged. -/
theorem merge_empty_noop (df : List (String × ℚ)) :
    merge_partners_grades df none = df ∧ merge_partners_grades df (some []) = df :=
  ⟨rfl, rfl⟩

theorem nodup_split2_facts {S T : List String} {x : String}
    (hnd : (S ++ x :: T).Nodup) : x ∉ S ∧ x ∉ T := by
  obtain ⟨hS, hcons, hdisj⟩ := List.nodup_append.mp hnd
  obtain ⟨hxT, hT⟩ := List.nodup_cons.mp hcons
  exact ⟨fun h => hdisj h (List.mem_cons_self _ _), hxT⟩

/-- C2 (amended): a student `a` whose declared partner `b` did not submit
gets `b` inserted with `a`'s own score, and `a`'s own score is unchanged —
provided no other student present in the score record declares `a` as
partner (otherwise that asymmetric declaration is processed too and lowers
`a`'s score before `a`'s own row is handled). -/
theorem merge_absent_partner {df : List (String × ℚ)} {ps : List (String × String)}
    {a b : String} {va : ℚ}
    (hnd : (df.map Prod.fst).Nodup)
    (ha : df.lookup a = some va)
    (hpa : ps.lookup a = some b)
    (hb : hasKey df b = false)
    (hno : ∀ s ∈ df.map Prod.fst, s ≠ a → ps.lookup s ≠ some a) :
    (merge_partners_grades df (some ps)).lookup a = some va ∧
    (b, va) ∈ merge_partners_grades df (some ps) := by
  have hps : ps ≠ [] := lookup_ne_nil hpa
  rw [merge_some_eq df hps]
  obtain ⟨S, T, hsplit⟩ := List.append_of_mem (lookup_some_mem_keys ha)
  have hndsplit := hnd
  rw [hsplit] at hndsplit
  obtain ⟨haS, haT⟩ := nodup_split2_facts hndsplit
  have hhyp : ∀ (L' : List String), (∀ s ∈ L', s ∈ df.map Prod.fst ∧ s ≠ a) →
      ∀ (D : List (String × ℚ)), ∀ s ∈ L', ∀ p,
        ps.lookup s = some p → hasKey D p = true → s ≠ a ∧ p ≠ a := by
    intro L' hsub D s hs p hp _
    obtain ⟨hsk, hsa⟩ := hsub s hs
    exact ⟨hsa, fun hpx => hno s hsk hsa (hpx ▸ hp)⟩
  have hsubS : ∀ s ∈ S, s ∈ df.map Prod.fst ∧ s ≠ a := by
    intro s hs
    exact ⟨by rw [hsplit]; exact List.mem_append_left _ hs, fun h => haS (h ▸ hs)⟩
  have hsubT : ∀ s ∈ T, s ∈ df.map Prod.fst ∧ s ≠ a := by
    intro s hs
    exact ⟨by rw [hsplit]; exact List.mem_append_right _ (List.mem_cons_of_mem _ hs),
      fun h => haT (h ▸ hs)⟩
  rw [hsplit, mergeLoop_append]
  set R1 := mergeLoop ps S df [] with hR1def
  have hR1keys : (R1.1).map Prod.fst = df.map Prod.fst := mergeLoop_keys ps S df []
  have hR1a : R1.1.lookup a = some va :=
    (mergeLoop_lookup_untouched S df [] (hhyp S hsubS df)).trans ha
  have hkb : hasKey R1.1 b = false := by
    rw [hasKey_congr_keys hR1keys]
    exact hb
  rw [mergeLoop_cons_absent _ _ _ hpa hR1a hkb]
  have hfinala : (mergeLoop ps T R1.1 (R1.2 ++ [(b, va)])).1.lookup a = some va :=
    (mergeLoop_lookup_untouched T R1.1 _ (hhyp T hsubT R1.1)).trans hR1a
  obtain ⟨t, ht⟩ := mergeLoop_pdf_mono ps T R1.1 (R1.2 ++ [(b, va)])
  constructor
  · exact lookup_append_of_some hfinala
  · refine List.mem_append_right _ ?_
    rw [ht]
    exact List.mem_append_left _ (List.mem_append_right _ (List.mem_cons_self _ _))

/-- Witness for C2 at the spec's example: only `a` submitted with 7.0, so
`b` is inserted at 7.0 and `a` stays at 7.0. -/
theorem merge_absent_partner_witness :
    (merge_partners_grades [("a", 7)] (some [("a", "b")])).lookup "a" = some 7 ∧
    ("b", (7 : ℚ)) ∈ merge_partners_grades [("a", 7)] (some [("a", "b")]) := by
  exact @merge_absent_partner [("a", 7)] [("a", "b")] "a" "b" 7
    (by decide) (by decide) (by decide) (by decide) (by decide)

/-- Counterexample to C2 as stated: `a` submitted with 7.0 and declared the
absent `b`, but `c` (score 1.0) asymmetrically declared `a`; processing `c`
first lowers `a` to 1.0, so `b` is inserted at 1.0 (not 7.0) and `a` does
not stay at 7.0. -/
theorem merge_absent_partner_cex :
    ([("c", "a"), ("a", "b")] : List (String × String)).lookup "a" = some "b" ∧
    hasKey [("c", 1), ("a", 7)] "b" = false ∧
    ([("c", 1), ("a", 7)] : List (String × ℚ)).lookup "a" = some 7 ∧
    merge_partners_grades [("c", 1), ("a", 7)] (some [("c", "a"), ("a", "b")]) =
      [("c", 1), ("a", 1), ("b", 1)] ∧
    (7 : ℚ) ≠ 1 := by
  decide

theorem pdfFilterHyp {ps : List (String × String)} {a b c : String} {keys L' : List String}
    (honly : ∀ s ∈ keys, (ps.lookup s = some c → s = a ∨ s = b) ∧
      ps.lookup s ≠ some a ∧ ps.lookup s ≠ some b)
    (hsub : ∀ s ∈ L', s ∈ keys ∧ s ≠ a ∧ s ≠ b) (D : List (String × ℚ)) :
    ∀ s ∈ L', ∀ p, ps.lookup s = some p → hasKey D p = false → p ≠ c := by
  intro s hs p hp _ hpc
  obtain ⟨hsk, hsa, hsb⟩ := hsub s hs
  rcases (honly s hsk).1 (hpc ▸ hp) with h | h
  · exact hsa h
  · exact hsb h

/-- C10 (amended): when two distinct submitters `a` and `b` (in that order
in the score record) both declare the same absent student `c`, and they are
the only declarers of `c`, and no student declares `a` or `b`, the merged
record carries exactly two separate rows for `c` — one per declaring
submitter, in submitter order, each with that submitter's original score —
and the written output has one line per row, including one line for each of
the two `c` rows. -/
theorem merge_two_declarers_absent {df : List (String × ℚ)} {ps : List (String × String)}
    {a b c : String} {va vb : ℚ} {L1 L2 L3 : List String}
    (hsplit : df.map Prod.fst = L1 ++ a :: (L2 ++ b :: L3))
    (hnd : (df.map Prod.fst).Nodup)
    (ha : df.lookup a = some va) (hb : df.lookup b = some vb)
    (hpa : ps.lookup a = some c) (hpb : ps.lookup b = some c)
    (hc : hasKey df c = false)
    (honly : ∀ s ∈ df.map Prod.fst,
      (ps.lookup s = some c → s = a ∨ s = b) ∧
      ps.lookup s ≠ some a ∧ ps.lookup s ≠ some b) :
    (merge_partners_grades df (some ps)).filter (fun e => decide (e.1 = c)) =
      [(c, va), (c, vb)] ∧
    (c ++ "," ++ renderScore va) ∈ gradesWriteLines (merge_partners_grades df (some ps)) ∧
    (c ++ "," ++ renderScore vb) ∈ gradesWriteLines (merge_partners_grades df (some ps)) ∧
    (gradesWriteLines (merge_partners_grades df (some ps))).length =
      (merge_partners_grades df (some ps)).length := by
  have hps : ps ≠ [] := lookup_ne_nil hpa
  have hfilter : (merge_partners_grades df (some ps)).filter (fun e => decide (e.1 = c)) =
      [(c, va), (c, vb)] := by
    rw [merge_some_eq df hps]
    have hndsplit := hnd
    rw [hsplit] at hndsplit
    obtain ⟨haL1, haL2, haL3, hbL1, hbL2, hbL3, hab⟩ := nodup_split_facts hndsplit
    have hsubL1 : ∀ s ∈ L1, s ∈ df.map Prod.fst ∧ s ≠ a ∧ s ≠ b := by
      intro s hs
      exact ⟨by rw [hsplit]; exact List.mem_append_left _ hs,
        fun h => haL1 (h ▸ hs), fun h => hbL1 (h ▸ hs)⟩
    have hsubL2 : ∀ s ∈ L2, s ∈ df.map Prod.fst ∧ s ≠ a ∧ s ≠ b := by
      intro s hs
      refine ⟨?_, fun h => haL2 (h ▸ hs), fun h => hbL2 (h ▸ hs)⟩
      rw [hsplit]
      exact List.mem_append_right _ (List.mem_cons_of_mem _ (List.mem_append_left _ hs))
    have hsubL3 : ∀ s ∈ L3, s ∈ df.map Prod.fst ∧ s ≠ a ∧ s ≠ b := by
      intro s hs
      refine ⟨?_, fun h => haL3 (h ▸ hs), fun h => hbL3 (h ▸ hs)⟩
      rw [hsplit]
      exact List.mem_append_right _ (List.mem_cons_of_mem _
        (List.mem_append_right _ (List.mem_cons_of_mem _ hs)))
    have hno' : ∀ s ∈ df.map Prod.fst, s ≠ a → s ≠ b →
        ps.lookup s ≠ some a ∧ ps.lookup s ≠ some b := fun s hs _ _ => (honly s hs).2
    rw [hsplit, mergeLoop_append]
    set R1 := mergeLoop ps L1 df [] with hR1def
    have hR1keys : (R1.1).map Prod.fst = df.map Prod.fst := mergeLoop_keys ps L1 df []
    have hR1a : R1.1.lookup a = some va :=
      (mergeLoop_lookup_untouched L1 df [] (untouched_hyp (Or.inl rfl) hno' hsubL1 df)).trans ha
    have hR1b : R1.1.lookup b = some vb :=
      (mergeLoop_lookup_untouched L1 df [] (untouched_hyp (Or.inr rfl) hno' hsubL1 df)).trans hb
    have hR1f : R1.2.filter (fun e => decide (e.1 = c)) = [] :=
      mergeLoop_pdf_filter L1 df [] (pdfFilterHyp honly hsubL1 df)
    have hkc1 : hasKey R1.1 c = false := by
      rw [hasKey_congr_keys hR1keys]
      exact hc
    rw [mergeLoop_cons_absent _ _ _ hpa hR1a hkc1]
    rw [mergeLoop_append]
    set R2 := mergeLoop ps L2 R1.1 (R1.2 ++ [(c, va)]) with hR2def
    have hR2keys : (R2.1).map Prod.fst = df.map Prod.fst :=
      (mergeLoop_keys ps L2 R1.1 _).trans hR1keys
    have hR2b : R2.1.lookup b = some vb :=
      (mergeLoop_lookup_untouched L2 R1.1 _
        (untouched_hyp (Or.inr rfl) hno' hsubL2 R1.1)).trans hR1b
    have hR2f : R2.2.filter (fun e => decide (e.1 = c)) = [(c, va)] := by
      rw [mergeLoop_pdf_filter L2 R1.1 _ (pdfFilterHyp honly hsubL2 R1.1)]
      rw [List.filter_append, hR1f]
      simp
    have hkc2 : hasKey R2.1 c = false := by
      rw [hasKey_congr_keys hR2keys]
      exact hc
    rw [mergeLoop_cons_absent _ _ _ hpb hR2b hkc2]
    set R3 := mergeLoop ps L3 R2.1 (R2.2 ++ [(c, vb)]) with hR3def
    have hR3keys : (R3.1).map Prod.fst = df.map Prod.fst :=
      (mergeLoop_keys ps L3 R2.1 _).trans hR2keys
    have hR3f : R3.2.filter (fun e => decide (e.1 = c)) = [(c, va), (c, vb)] := by
      rw [mergeLoop_pdf_filter L3 R2.1 _ (pdfFilterHyp honly hsubL3 R2.1)]
      rw [List.filter_append, hR2f]
      simp
    have hcnotmem : c ∉ (R3.1).map Prod.fst := by
      rw [hR3keys]
      intro hmem
      rw [hasKey_iff_mem.mpr hmem] at hc
      cases hc
    rw [List.filter_append, filter_key_nil hcnotmem, hR3f, List.nil_append]
  have hmema : (c, va) ∈ merge_partners_grades df (some ps) :=
    List.mem_of_mem_filter (by rw [hfilter]; exact List.mem_cons_self _ _)
  have hmemb : (c, vb) ∈ merge_partners_grades df (some ps) :=
    List.mem_of_mem_filter (by
      rw [hfilter]
      exact List.mem_cons_of_mem _ (List.mem_cons_self _ _))
  refine ⟨hfilter, ?_, ?_, ?_⟩
  · exact List.mem_map_of_mem lineOf hmema
  · exact List.mem_map_of_mem lineOf hmemb
  · simp [gradesWriteLines]

/-- Witness for C10: `x` (7.0) and `y` (3.0) both declare the absent `c`;
the merged record ends with the two rows `(c, 7)` and `(c, 3)`. -/
theorem merge_two_declarers_absent_witness :
    (merge_partners_grades [("x", 7), ("y", 3)] (some [("x", "c"), ("y", "c")])).filter
      (fun e => decide (e.1 = "c")) = [("c", 7), ("c", 3)] ∧
    ("c" ++ "," ++ renderScore 7) ∈
      gradesWriteLines (merge_partners_grades [("x", 7), ("y", 3)]
        (some [("x", "c"), ("y", "c")])) ∧
    ("c" ++ "," ++ renderScore 3) ∈
      gradesWriteLines (merge_partners_grades [("x", 7), ("y", 3)]
        (some [("x", "c"), ("y", "c")])) ∧
    (gradesWriteLines (merge_partners_grades [("x", 7), ("y", 3)]
      (some [("x", "c"), ("y", "c")]))).length =
      (merge_partners_grades [("x", 7), ("y", 3)] (some [("x", "c"), ("y", "c")])).length := by
  exact @merge_two_declarers_absent [("x", 7), ("y", 3)] [("x", "c"), ("y", "c")]
    "x" "y" "c" 7 3 [] [] [] (by decide) (by decide) (by decide) (by decide) (by decide)
    (by decide) (by decide) (by decide)

/-- Counterexample to C10 as stated: `x` (original score 7.0) and `y` (3.0)
both declare the absent `c`, but the asymmetric declaration of `z` (score
1.0) naming `x` is processed first and lowers `x` to 1.0, so `c`'s first
row carries 1.0 — not the declaring submitter's score 7.0. -/
theorem merge_two_declarers_absent_cex :
    ([("z", 1), ("x", 7), ("y", 3)] : List (String × ℚ)).lookup "x" = some 7 ∧
    ([("z", "x"), ("x", "c"), ("y", "c")] : List (String × String)).lookup "x" = some "c" ∧
    ([("z", "x"), ("x", "c"), ("y", "c")] : List (String × String)).lookup "y" = some "c" ∧
    hasKey [("z", 1), ("x", 7), ("y", 3)] "c" = false ∧
    merge_partners_grades [("z", 1), ("x", 7), ("y", 3)]
      (some [("z", "x"), ("x", "c"), ("y", "c")]) =
      [("z", 1), ("x", 1), ("y", 3), ("c", 1), ("c", 3)] ∧
    ("c", (7 : ℚ)) ∉ merge_partners_grades [("z", 1), ("x", 7), ("y", 3)]
      (some [("z", "x"), ("x", "c"), ("y", "c")]) := by
  decide

/-! ### Grade parser lemmas -/

theorem parseGrades_eq_of_nil {rows : List (List String)} (hnb : nonBlank rows = []) :
    parseGrades rows = Except.error ParseErr.emptyData := by
  unfold parseGrades
  rw [hnb]

theorem parseGrades_eq_of_cons {rows : List (List String)} {first : List String}
    {rest : List (List String)} (hnb : nonBlank rows = first :: rest) :
    parseGrades rows =
      (if (first :: rest).any (fun r => decide (first.length < r.length)) then
        Except.error ParseErr.extraFields
      else if first.length ≠ 2 then Except.error ParseErr.columnsMismatch
      else Except.ok ((first :: rest).map (fun r =>
        (toVal ((first :: rest).all (fun r => fieldNumeric (r.get? 0))) (r.get? 0),
         toVal ((first :: rest).all (fun r => fieldNumeric (r.get? 1))) (r.get? 1))))) := by
  unfold parseGrades
  rw [hnb]

theorem parseGrades_ok_elim {rows : List (List String)} {l : List (Val × Val)}
    (h : parseGrades rows = Except.ok l) :
    l = (nonBlank rows).map (fun r =>
      (toVal ((nonBlank rows).all (fun r => fieldNumeric (r.get? 0))) (r.get? 0),
       toVal ((nonBlank rows).all (fun r => fieldNumeric (r.get? 1))) (r.get? 1))) := by
  cases hnb : nonBlank rows with
  | nil =>
    rw [parseGrades_eq_of_nil hnb] at h
    exact Except.noConfusion h
  | cons first rest =>
    rw [parseGrades_eq_of_cons hnb] at h
    by_cases h1 : ((first :: rest).any fun r => decide (first.length < r.length)) = true
    · rw [if_pos h1] at h
      exact Except.noConfusion h
    · rw [if_neg h1] at h
      by_cases h2 : first.length ≠ 2
      · rw [if_pos h2] at h
        exact Except.noConfusion h
      · rw [if_neg h2] at h
        injection h with h
        exact h.symm

theorem parseGrades_ok_iff (rows : List (List String)) :
    (∃ l, parseGrades rows = Except.ok l) ↔
      ∃ first rest, nonBlank rows = first :: rest ∧ first.length = 2 ∧
        ∀ r ∈ nonBlank rows, r.length ≤ 2 := by
  cases hnb : nonBlank rows with
  | nil =>
    constructor
    · rintro ⟨l, h⟩
      rw [parseGrades_eq_of_nil hnb] at h
      exact Except.noConfusion h
    · rintro ⟨f, r, h, -⟩
      exact List.noConfusion h
  | cons first rest =>
    constructor
    · rintro ⟨l, h⟩
      rw [parseGrades_eq_of_cons hnb] at h
      by_cases h1 : ((first :: rest).any fun r => decide (first.length < r.length)) = true
      · rw [if_pos h1] at h
        exact Except.noConfusion h
      · rw [if_neg h1] at h
        by_cases h2 : first.length ≠ 2
        · rw [if_pos h2] at h
          exact Except.noConfusion h
        · simp only [List.any_eq_true, decide_eq_true_eq] at h1
          push_neg at h1
          refine ⟨first, rest, rfl, by omega, ?_⟩
          intro r hr
          have h3 := h1 r hr
          omega
    · rintro ⟨f, r, hfr, hlen, hall⟩
      injection hfr with hf hr
      subst hf
      subst hr
      have h1 : ¬ (((first :: rest).any fun r => decide (first.length < r.length)) = true) := by
        simp only [List.any_eq_true, decide_eq_true_eq]
        push_neg
        intro r' hr'
        have := hall r' hr'
        omega
      rw [parseGrades_eq_of_cons hnb, if_neg h1, if_neg (by omega : ¬ first.length ≠ 2)]
      exact ⟨_, rfl⟩

/-- C4 (amended): construction of `Grades` fails iff the input (blank rows
ignored) is empty, or its first row does not split into exactly two fields,
or some row splits into more fields than the first row; otherwise it
produces one entry per row keyed by the first field as pandas per-column
inference leaves it: numeric keys when every first-column field is numeric,
the raw strings otherwise.  A non-numeric score field does not fail (the
score column is then kept as raw strings), and a row with fewer than two
fields does not fail (its score is missing). -/
theorem parse_error_exactly (rows : List (List String)) :
    ((∃ l, parseGrades rows = Except.ok l) ↔
      ∃ first rest, nonBlank rows = first :: rest ∧ first.length = 2 ∧
        ∀ r ∈ nonBlank rows, r.length ≤ 2) ∧
    ∀ l, parseGrades rows = Except.ok l →
      l.map Prod.fst = (nonBlank rows).map (fun r =>
        toVal ((nonBlank rows).all (fun r => fieldNumeric (r.get? 0))) (r.get? 0)) := by
  refine ⟨parseGrades_ok_iff rows, ?_⟩
  intro l h
  rw [parseGrades_ok_elim h, List.map_map]
  rfl

/-- Witness for C4 on a well-formed two-column input with a non-numeric
student column (so the keys stay raw strings). -/
theorem parse_error_exactly_witness :
    (∃ l, parseGrades [["s1", "8.0"], ["s2", "0.5"]] = Except.ok l) ∧
    [(Val.str "s1", Val.num 8), (Val.str "s2", Val.num (mkRat 1 2))].map Prod.fst =
      (nonBlank [["s1", "8.0"], ["s2", "0.5"]]).map (fun r =>
        toVal ((nonBlank [["s1", "8.0"], ["s2", "0.5"]]).all
          (fun r => fieldNumeric (r.get? 0))) (r.get? 0)) := by
  constructor
  · exact (parse_error_exactly [["s1", "8.0"], ["s2", "0.5"]]).1.mpr
      ⟨["s1", "8.0"], [["s2", "0.5"]], rfl, by decide, by decide⟩
  · exact (parse_error_exactly [["s1", "8.0"], ["s2", "0.5"]]).2 _ (by rfl)

/-- Counterexample to C4 as stated: a row whose score field is not numeric
parses without error (the score is kept as the raw string), a row that
splits into only one field parses without error too (missing score), and an
all-numeric student column is converted to numeric keys, so "first column
as key" does not hold verbatim either ("01" becomes the number 1). -/
theorem parse_error_exactly_cex :
    parseFloat? "xyz" = none ∧
    parseGrades [["a", "xyz"]] = Except.ok [(Val.str "a", Val.str "xyz")] ∧
    parseGrades [["a", "1.0"], ["b"]] =
      Except.ok [(Val.str "a", Val.num 1), (Val.str "b", Val.nan)] ∧
    parseGrades [["01", "5"]] = Except.ok [(Val.num 1, Val.num 5)] ∧
    Val.num 1 ≠ Val.str "01" :=
  ⟨rfl, rfl, rfl, rfl, by decide⟩

/-- C5 (amended): the parser keeps every non-blank row as its own entry, in
input order; duplicate student keys are retained as multiple entries — no
overwrite and no aggregation.  Keys are the first column as pandas
per-column inference leaves it (numeric when the whole column is numeric,
raw strings otherwise). -/
theorem parse_retains_all_rows (rows : List (List String)) (l : List (Val × Val))
    (h : parseGrades rows = Except.ok l) :
    l.length = (nonBlank rows).length ∧
    l.map Prod.fst = (nonBlank rows).map (fun r =>
      toVal ((nonBlank rows).all (fun r => fieldNumeric (r.get? 0))) (r.get? 0)) := by
  rw [parseGrades_ok_elim h]
  constructor
  · rw [List.length_map]
  · rw [List.map_map]
    rfl

/-- Witness for C5 on an input with a duplicated student key. -/
theorem parse_retains_all_rows_witness :
    ([(Val.str "a", Val.num 1), (Val.str "a", Val.num 2)] : List (Val × Val)).length =
      (nonBlank [["a", "1.0"], ["a", "2.0"]]).length ∧
    ([(Val.str "a", Val.num 1), (Val.str "a", Val.num 2)] : List (Val × Val)).map Prod.fst =
      (nonBlank [["a", "1.0"], ["a", "2.0"]]).map (fun r =>
        toVal ((nonBlank [["a", "1.0"], ["a", "2.0"]]).all
          (fun r => fieldNumeric (r.get? 0))) (r.get? 0)) :=
  parse_retains_all_rows [["a", "1.0"], ["a", "2.0"]]
    [(Val.str "a", Val.num 1), (Val.str "a", Val.num 2)] rfl

/-- Counterexample to C5 as stated: two rows with the same key "a" yield two
retained entries (scores 1.0 then 2.0), not a single last-row-wins entry. -/
theorem parse_retains_all_rows_cex :
    parseGrades [["a", "1.0"], ["a", "2.0"]] =
      Except.ok [(Val.str "a", Val.num 1), (Val.str "a", Val.num 2)] ∧
    ([(Val.str "a", Val.num 1), (Val.str "a", Val.num 2)].countP
      (fun e => decide (e.1 = Val.str "a"))) = 2 ∧
    (2 : Nat) ≠ 1 :=
  ⟨rfl, by decide, by decide⟩

/-! ### Partner resolver lemmas -/

/-- C6: an entry `(a, b)` of the built partner mapping is flagged as
asymmetric exactly when `b` is not a key of the mapping or the mapping sends
`b` to someone other than `a`; flagged entries are only warned about and
every flagged entry remains in the returned mapping unchanged. -/
theorem asymmetric_entries_flagged (rows : List (String × String)) (a b : String)
    (h : (a, b) ∈ partnersDict rows) :
    ((a, b) ∈ noPartners (partnersDict rows) ↔
      (b ∉ (partnersDict rows).map Prod.fst ∨ (partnersDict rows).lookup b ≠ some a)) ∧
    ∀ e ∈ noPartners (partnersDict rows), e ∈ partnersDict rows := by
  constructor
  · rw [noPartners, List.mem_filter]
    simp only [decide_eq_true_eq]
    constructor
    · rintro ⟨-, hne⟩
      exact Or.inr hne
    · rintro (hb | hne)
      · refine ⟨h, ?_⟩
        rw [lookup_eq_none_iff.mpr hb]
        simp
      · exact ⟨h, hne⟩
  · intro e he
    exact List.mem_of_mem_filter he

/-- Witness for C6: with rows `a→b` and `b→c`, the entry `(a, b)` is
flagged (since `partner[b] = c ≠ a`) yet remains in the mapping. -/
theorem asymmetric_entries_flagged_witness :
    (("a", "b") ∈ noPartners (partnersDict [("a", "b"), ("b", "c")]) ↔
      ("b" ∉ (partnersDict [("a", "b"), ("b", "c")]).map Prod.fst ∨
        (partnersDict [("a", "b"), ("b", "c")]).lookup "b" ≠ some "a")) ∧
    ("a", "b") ∈ partnersDict [("a", "b"), ("b", "c")] := by
  have h := asymmetric_entries_flagged [("a", "b"), ("b", "c")] "a" "b" (by decide)
  exact ⟨h.1, h.2 ("a", "b") (by decide)⟩

theorem mem_dictInsert {d : List (String × String)} {k v : String} {e : String × String}
    (h : e ∈ dictInsert d k v) :
    (e.1 = k ∨ e.1 ∈ d.map Prod.fst) ∧ (e.2 = v ∨ e.2 ∈ d.map Prod.snd) := by
  unfold dictInsert at h
  by_cases hany : d.any (fun x => decide (x.1 = k)) = true
  · rw [if_pos hany] at h
    obtain ⟨x, hx, hxe⟩ := List.mem_map.mp h
    by_cases hxk : x.1 = k
    · rw [if_pos hxk] at hxe
      subst hxe
      exact ⟨Or.inl rfl, Or.inl rfl⟩
    · rw [if_neg hxk] at hxe
      subst hxe
      exact ⟨Or.inr (List.mem_map_of_mem _ hx), Or.inr (List.mem_map_of_mem _ hx)⟩
  · rw [if_neg hany] at h
    rcases List.mem_append.mp h with hd | hkv
    · exact ⟨Or.inr (List.mem_map_of_mem _ hd), Or.inr (List.mem_map_of_mem _ hd)⟩
    · rcases List.mem_cons.mp hkv with rfl | hf
      · exact ⟨Or.inl rfl, Or.inl rfl⟩
      · exact absurd hf (List.not_mem_nil _)

theorem partnersDict_aux (rows : List (String × String)) (d0 : List (String × String))
    (P Q : String → Prop)
    (hd0 : ∀ e ∈ d0, P e.1 ∧ Q e.2)
    (hrows : ∀ r ∈ rows, P (preprocess r.1) ∧ Q (preprocess r.2)) :
    ∀ e ∈ rows.foldl (fun d r => dictInsert d (preprocess r.1) (preprocess r.2)) d0,
      P e.1 ∧ Q e.2 := by
  induction rows generalizing d0 with
  | nil => exact hd0
  | cons r rest ih =>
    intro e he
    rw [List.foldl_cons] at he
    refine ih (dictInsert d0 (preprocess r.1) (preprocess r.2)) ?_
      (fun r' hr' => hrows r' (List.mem_cons_of_mem _ hr')) e he
    intro e' he'
    obtain ⟨h1, h2⟩ := mem_dictInsert he'
    constructor
    · rcases h1 with h | h
      · rw [h]
        exact (hrows r (List.mem_cons_self _ _)).1
      · obtain ⟨x, hx, hxe⟩ := List.mem_map.mp h
        rw [← hxe]
        exact (hd0 x hx).1
    · rcases h2 with h | h
      · rw [h]
        exact (hrows r (List.mem_cons_self _ _)).2
      · obtain ⟨x, hx, hxe⟩ := List.mem_map.mp h
        rw [← hxe]
        exact (hd0 x hx).2

/-- C7 (amended): every key and every value of the partner mapping is the
normalization (lowercase, trim) of an input field; score record keys, by
contrast, are not normalized — no lowercasing or trimming is applied to
them (in the counterexample an uppercase key survives grade parsing; an
all-numeric student column is instead converted to numbers by pandas
inference). -/
theorem partner_identifiers_normalized (rows : List (String × String)) :
    ∀ e ∈ partnersDict rows,
      (∃ r ∈ rows, e.1 = preprocess r.1) ∧ (∃ r ∈ rows, e.2 = preprocess r.2) := by
  have h := partnersDict_aux rows [] (fun x => ∃ r ∈ rows, x = preprocess r.1)
    (fun x => ∃ r ∈ rows, x = preprocess r.2) (by simp)
    (fun r hr => ⟨⟨r, hr, rfl⟩, ⟨r, hr, rfl⟩⟩)
  exact h

/-- Witness for C7 (amended): the row `(" A", "B ")` produces the normalized
entry `("a", "b")`. -/
theorem partner_identifiers_normalized_witness :
    (∃ r ∈ [(" A", "B ")], "a" = preprocess r.1) ∧
    (∃ r ∈ [(" A", "B ")], "b" = preprocess r.2) :=
  partner_identifiers_normalized [(" A", "B ")] ("a", "b") (by decide)

/-- Counterexample to C7 as stated: the Grade Parser does not normalize —
the key "A" survives grade parsing as the un-lowercased string "A", while
normalization would produce "a". -/
theorem partner_identifiers_normalized_cex :
    parseGrades [["A", "8.0"]] = Except.ok [(Val.str "A", Val.num 8)] ∧
    preprocess "A" = "a" ∧ ("A" : String) ≠ "a" :=
  ⟨rfl, by decide, by decide⟩

/-! ### Output formatter lemmas -/

theorem str_append_empty (s : String) : s ++ "" = s := by
  cases s with
  | mk data =>
    show String.mk (data ++ []) = String.mk data
    rw [List.append_nil]

theorem str_empty_append (s : String) : "" ++ s = s := by
  cases s with
  | mk data =>
    show String.mk ([] ++ data) = String.mk data
    rw [List.nil_append]

theorem str_append_assoc (a b c : String) : a ++ b ++ c = a ++ (b ++ c) := by
  cases a with
  | mk la =>
    cases b with
    | mk lb =>
      cases c with
      | mk lc =>
        show String.mk (la ++ lb ++ lc) = String.mk (la ++ (lb ++ lc))
        rw [List.append_assoc]

theorem str_foldl_append (l : List String) (a : String) :
    List.foldl (fun x y => x ++ y) a l = a ++ List.foldl (fun x y => x ++ y) "" l := by
  induction l generalizing a with
  | nil => exact (str_append_empty a).symm
  | cons x t ih =>
    rw [List.foldl_cons, List.foldl_cons, ih (a ++ x), str_append_assoc,
      str_empty_append, ← ih x]

theorem string_join_cons (s : String) (l : List String) :
    String.join (s :: l) = s ++ String.join l := by
  unfold String.join
  rw [List.foldl_cons, str_foldl_append, str_empty_append]

/-- C8: the written file is exactly the `,assignment` line, then the
`Points Possible,points` line, then one `student,score` line per merged
record entry, in that order and each newline-terminated — no header row for
the score lines, fields in that fixed order. -/
theorem canvas_output_format (assignment points : String) (df : List (String × ℚ)) :
    canvasWrite assignment points df =
      String.join ((("," ++ assignment) :: ("Points Possible," ++ points) ::
        df.map (fun e => e.1 ++ "," ++ renderScore e.2)).map (fun l => l ++ "\n")) := by
  unfold canvasWrite gradesWrite gradesWriteLines lineOf
  rw [List.map_cons, List.map_cons, string_join_cons, string_join_cons,
    str_append_assoc]

/-! ### Configuration validation -/

theorem verify_config_fails {isFile : String → Bool} {cfg : List (String × String)}
    (h : (∃ k ∈ requiredKeys, hasCfgKey cfg k = false) ∨
      isFile (cfgGet cfg "grades") = false ∨
      (hasCfgKey cfg "partners" = true ∧ isFile (cfgGet cfg "partners") = false)) :
    ∃ e, verify_config isFile cfg = some e := by
  unfold verify_config
  split_ifs with h1 h2 h3 h4 h5 h6
  any_goals exact ⟨_, rfl⟩
  exfalso
  simp only [Bool.not_eq_true', Bool.not_eq_false] at h1 h2 h3 h4 h5
  simp only [Bool.and_eq_true, Bool.not_eq_true'] at h6
  push_neg at h6
  rcases h with ⟨k, hk, hkf⟩ | hg | ⟨hp, hpf⟩
  · simp only [requiredKeys, List.mem_cons, List.not_mem_nil, or_false] at hk
    rcases hk with rfl | rfl | rfl | rfl
    · rw [h1] at hkf
      cases hkf
    · rw [h2] at hkf
      cases hkf
    · rw [h3] at hkf
      cases hkf
    · rw [h4] at hkf
      cases hkf
  · rw [h5] at hg
    cases hg
  · exact h6 hp hpf

/-- C9: if a required configuration key (`points`, `assignment`, `grades`,
`output_file`) is missing, or the grades path (or a configured partners
path) does not name an existing file, then the run performs no read of the
partners or grades files, writes no output file, and exits with code 1. -/
theorem config_error_no_output {isFile : String → Bool} {cfg : List (String × String)}
    (h : (∃ k ∈ requiredKeys, hasCfgKey cfg k = false) ∨
      isFile (cfgGet cfg "grades") = false ∨
      (hasCfgKey cfg "partners" = true ∧ isFile (cfgGet cfg "partners") = false)) :
    (mainEvents isFile cfg).1 = [] ∧ (mainEvents isFile cfg).2 = 1 := by
  obtain ⟨e, he⟩ := verify_config_fails h
  unfold mainEvents
  rw [he]
  exact ⟨rfl, rfl⟩

/-- Witness for C9: an empty configuration is missing the `points` key, so
nothing is read or written and the exit code is 1. -/
theorem config_error_no_output_witness :
    (mainEvents (fun _ => true) []).1 = [] ∧ (mainEvents (fun _ => true) []).2 = 1 :=
  config_error_no_output (Or.inl ⟨"points", by decide, by decide⟩)
